import Mathlib

/-!
Verification of the `assemble-malie-dzi` tool (src/rust_impl/src/main.rs): a
shallow embedding of the DZI manifest parser (`parse_dzi`), the tile-grid layer
compositor (`compose_layer`, built on the `image` crate's `overlay` and
`crop_imm` operations), and the per-layer driving loop of `run` (target-size
computation and the `enable_lower_layers` skip), together with theorems about
the claims of the specification.

Modelling conventions:
* Manifest text is modelled at the granularity of its line list (Rust
  `str::lines` output); splitting, trimming and integer parsing follow the
  Rust semantics (`str::split(',')` always yields at least one piece, unsigned
  `parse` accepts an optional leading `+` followed by one or more ASCII digits
  and fails on overflow of the target width).
* `.unwrap()` panics in `parse_dzi` are modelled as the distinguished error
  `ParseErr.panicked`; the single `anyhow` `Result` error path (a missing size
  line) is `ParseErr.noSizeLine`.  A panic aborts the process, bypassing the
  `Result` channel that `main` reports.
* Images are RGBA rasters with `Nat` channels and dimensions (tile
  dimensions come from decoded PNG headers and are u32 values in any real
  run; channel values produced by the code always lie below 256).  The
  canvas dimensions `cols as u32 * tile_w` / `rows as u32 * tile_h` and the
  overlay offsets `(x as u32 * tile_w) as i64` / `(y as u32 * tile_h) as
  i64` are u32 computations in the source and wrap modulo 2^32 in release
  builds (debug builds panic at the same inputs); the model computes the
  `Nat` product reduced `% 2^32`, which coincides with the u32 result for
  all inputs.
* The `image` crate's `Rgba::blend` converts channels to f32, composites in
  f32, and casts back with a truncating `NumCast` conversion; the model
  takes the crate's two short-circuit branches verbatim (top alpha 0 keeps
  the bottom pixel, top alpha 255 copies the top pixel) and emulates every
  f32 operation of the general branch by correctly rounded binary32
  arithmetic over `ℚ` (round to nearest, ties to even).  All intermediate
  values of the blend lie inside the normal positive f32 range, so the
  emulation needs no subnormal, overflow or sign handling.
* Filesystem effects of `compose_layer` are reflected in its result value:
  `Except.ok none` means the empty-grid early return (no load, no directory
  creation, no file write); `Except.ok (some out)` records, in `LayerOutput`,
  the anchor tile size, the freshly initialized canvas, the drawn canvas, the
  cropped image and the output directory / file names that are written.
-/

deriving instance DecidableEq for Except

namespace Malie

/-- One RGBA pixel, channel order red, green, blue, alpha. -/
structure Rgba where
  r : Nat
  g : Nat
  b : Nat
  a : Nat
deriving DecidableEq

/-- The fully transparent pixel `Rgba([0, 0, 0, 0])` used to initialize the canvas. -/
def Rgba.transparent : Rgba := ⟨0, 0, 0, 0⟩

/-- An RGBA raster: width, height, and pixel lookup (x across, y down).
Lookups outside the bounds are irrelevant junk, as in the buffer they model. -/
structure Image where
  width : Nat
  height : Nat
  pix : Nat → Nat → Rgba

/-- `RgbaImage::from_pixel`: a `w × h` raster holding `p` everywhere. -/
def Image.fromPixel (w h : Nat) (p : Rgba) : Image := ⟨w, h, fun _ _ => p⟩

/-- Exclusive upper bound of `u32` values. -/
def u32Bound : Nat := 2 ^ 32

/-- Exclusive upper bound of `usize` (64-bit target) values. -/
def usizeBound : Nat := 2 ^ 64

/-- Round a rational to an integer, to nearest with ties to even (the IEEE
754 default rounding used for every f32 operation below). -/
def roundTiesEven (q : ℚ) : ℤ :=
  let f := ⌊q⌋
  let frac := q - (f : ℚ)
  if frac < 1 / 2 then f
  else if 1 / 2 < frac then f + 1
  else if f % 2 = 0 then f else f + 1

/-- The binary32 (f32) value nearest a nonnegative rational, ties to even:
scale the significand to 24 bits at the value's own binade and round.  The
exponent range is unchecked because every value fed to it by `blend` lies
inside the normal positive range of f32 (roughly `2^-24` to `2^9` here). -/
def f32Round (q : ℚ) : ℚ :=
  if q ≤ 0 then 0
  else
    let e : ℤ := Int.log 2 q
    ((roundTiesEven (q * (2 : ℚ) ^ (23 - e)) : ℚ)) * (2 : ℚ) ^ (e - 23)

/-- The `image` crate's `Rgba::blend` of `top` onto `bot`.  The two
short-circuit branches are taken verbatim; the general branch follows the
crate's f32 alpha-compositing formula operation by operation — each channel
is converted by `(c as f32) / 255f32`, every addition, subtraction,
multiplication and division is a single correctly rounded f32 operation
(modelled by `f32Round` of the exact result), and the final
`NumCast::from(255f32 * out)` conversion truncates toward zero. -/
def blend (bot top : Rgba) : Rgba :=
  if top.a = 0 then bot
  else if top.a = 255 then top
  else
    let bgA : ℚ := f32Round ((bot.a : ℚ) / 255)
    let fgA : ℚ := f32Round ((top.a : ℚ) / 255)
    let alphaFinal : ℚ := f32Round (f32Round (bgA + fgA) - f32Round (bgA * fgA))
    if alphaFinal = 0 then bot
    else
      let outC : Nat → Nat → Nat := fun bg fg =>
        let bgC := f32Round ((bg : ℚ) / 255)
        let fgC := f32Round ((fg : ℚ) / 255)
        let bgCA := f32Round (bgC * bgA)
        let fgCA := f32Round (fgC * fgA)
        let outCA := f32Round (fgCA + f32Round (bgCA * f32Round (1 - fgA)))
        (⌊f32Round (255 * f32Round (outCA / alphaFinal))⌋).toNat
      ⟨outC bot.r top.r, outC bot.g top.g, outC bot.b top.b,
        (⌊f32Round (255 * alphaFinal)⌋).toNat⟩

/-- `image::imageops::overlay bot top ox oy`: blend every pixel of `top` onto
`bot` at offset `(ox, oy)`, clipped to the bounds of `bot`. -/
def overlayImg (bot top : Image) (ox oy : Nat) : Image :=
  { bot with pix := fun px py =>
      if ox ≤ px ∧ px < ox + top.width ∧ oy ≤ py ∧ py < oy + top.height ∧
          px < bot.width ∧ py < bot.height
      then blend (bot.pix px py) (top.pix (px - ox) (py - oy))
      else bot.pix px py }

/-- `image::imageops::crop_imm(canvas, 0, 0, w, h).to_image()` for `w`/`h`
already clamped to the canvas bounds: a `w × h` view anchored at the top-left
corner, sharing the canvas pixels. -/
def cropImm (img : Image) (w h : Nat) : Image := ⟨w, h, img.pix⟩

/-- Failure of the composition phase: `load_tile` could not open the tile
image file with the given name (path relative to the tile directory). -/
inductive ComposeErr where
  | tileLoad (fname : String)
deriving DecidableEq

/-- `load_tile`: look the file name up in the tile directory (modelled as a
partial map from file names to decoded images); a missing or undecodable file
is the `tileLoad` error. -/
def load_tile (tex : String → Option Image) (fname : String) : Except ComposeErr Image :=
  match tex fname with
  | some img => .ok img
  | none => .error (.tileLoad fname)

/-- The file name `format!("{name}.png")` of the tile called `name`. -/
def tileFile (name : String) : String := name ++ ".png"

/-- The inner loop of `compose_layer` over one row of the grid: `x` is the
column index of the head cell, `y` the row index.  Empty identifiers are
skipped; any other cell loads its tile (a failure aborts) and overlays it at
the offset `(x as u32 * tile_w) as i64` / `(y as u32 * tile_h) as i64` —
u32 multiplications, hence the products reduced mod 2^32. -/
def drawRow (tex : String → Option Image) (tileW tileH y : Nat) :
    Nat → List String → Image → Except ComposeErr Image
  | _, [], canvas => .ok canvas
  | x, name :: rest, canvas =>
    if name = "" then drawRow tex tileW tileH y (x + 1) rest canvas
    else
      match load_tile tex (tileFile name) with
      | .error e => .error e
      | .ok img =>
        drawRow tex tileW tileH y (x + 1) rest
          (overlayImg canvas img (x * tileW % u32Bound) (y * tileH % u32Bound))

/-- The outer loop of `compose_layer` over the rows of the grid: `y` is the
row index of the head row. -/
def drawGrid (tex : String → Option Image) (tileW tileH : Nat) :
    Nat → List (List String) → Image → Except ComposeErr Image
  | _, [], canvas => .ok canvas
  | y, row :: rest, canvas =>
    match drawRow tex tileW tileH y 0 row canvas with
    | .error e => .error e
    | .ok c2 => drawGrid tex tileW tileH (y + 1) rest c2

/-- Everything `compose_layer` produces for a non-empty grid: the anchor tile
size, the transparent canvas it starts from, the canvas after all cells are
drawn, the cropped image that is persisted, and the directory / file written
(paths relative to the output directory). -/
structure LayerOutput where
  tileW : Nat
  tileH : Nat
  initCanvas : Image
  canvas : Image
  cropped : Image
  outDir : String
  outFile : String

/-- `compose_layer` from src/rust_impl/src/main.rs lines 88-143.  `tex` is the
tile directory, `tiles` the layer's grid.  `Except.ok none` is the empty-grid
early return (nothing loaded, created or written); `Except.ok (some out)`
records the full composition that writes `out.outFile`. -/
def compose_layer (tex : String → Option Image) (tiles : List (List String))
    (layerIndex : Nat) (group : String) (finalWidth finalHeight : Nat) :
    Except ComposeErr (Option LayerOutput) :=
  match tiles with
  | [] => .ok none
  | firstRow :: _ =>
    match firstRow with
    | [] => .ok none
    | firstName :: _ =>
      match load_tile tex (tileFile firstName) with
      | .error e => .error e
      | .ok firstTile =>
        let tileW := firstTile.width
        let tileH := firstTile.height
        let rows := tiles.length
        let cols := firstRow.length
        let composedW := cols * tileW % u32Bound
        let composedH := rows * tileH % u32Bound
        let canvas0 := Image.fromPixel composedW composedH Rgba.transparent
        match drawGrid tex tileW tileH 0 tiles canvas0 with
        | .error e => .error e
        | .ok canvas =>
          let cropped := cropImm canvas (min finalWidth composedW) (min finalHeight composedH)
          .ok (some { tileW := tileW, tileH := tileH, initCanvas := canvas0,
                      canvas := canvas, cropped := cropped, outDir := group,
                      outFile := group ++ "/layer_" ++ toString layerIndex ++ ".png" })

/-- Failure of `parse_dzi`.  `noSizeLine` is the one recoverable error the
function returns through its `Result` (the `anyhow` context "No size line in
DZI file"); `panicked` models the `.unwrap()` panics on malformed integers,
too few size-line fields, or a file ending before the declared row lines —
a panic aborts the process instead of returning through the `Result`. -/
inductive ParseErr where
  | noSizeLine
  | panicked
deriving DecidableEq

/-- One pyramid level: the grid of tile identifiers and the header's declared
row and column counts (stored as parsed, not validated against the grid). -/
structure DziLayer where
  tiles : List (List String)
  rows : Nat
  cols : Nat
deriving DecidableEq

/-- A parsed manifest: full-resolution dimensions and the layer list. -/
structure DziFile where
  width : Nat
  height : Nat
  layers : List DziLayer
deriving DecidableEq

/-- Rust `char::is_whitespace`: the Unicode White_Space property. -/
def rustIsWhitespace (c : Char) : Bool :=
  c.toNat ∈ ([9, 10, 11, 12, 13, 32, 133, 160, 5760, 8192, 8193, 8194, 8195,
    8196, 8197, 8198, 8199, 8200, 8201, 8202, 8232, 8233, 8239, 8287, 12288] : List Nat)

/-- Drop the leading whitespace characters. -/
def dropLeadingWs : List Char → List Char
  | [] => []
  | c :: cs => if rustIsWhitespace c then dropLeadingWs cs else c :: cs

/-- Rust `str::trim`: strip whitespace from both ends. -/
def rustTrim (s : String) : String :=
  ⟨(dropLeadingWs (dropLeadingWs s.data.reverse).reverse)⟩

/-- Rust `str::split(',')` over the character list: always at least one
piece, the empty string splits to one empty piece. -/
def splitCommaChars : List Char → List (List Char)
  | [] => [[]]
  | c :: cs =>
    if c = ',' then [] :: splitCommaChars cs
    else
      match splitCommaChars cs with
      | [] => [[c]]
      | p :: ps => (c :: p) :: ps

/-- Rust `str::split(',')` giving the pieces as strings. -/
def splitComma (s : String) : List String :=
  (splitCommaChars s.data).map (fun cs => ⟨cs⟩)

/-- Value accumulation of Rust integer parsing over the digit characters;
`none` as soon as a non-ASCII-digit appears. -/
def digitsValue : List Char → Nat → Option Nat
  | [], acc => some acc
  | c :: cs, acc =>
    if c.isDigit then digitsValue cs (acc * 10 + (c.toNat - 48)) else none

/-- Rust `str::parse` for an unsigned integer type whose values are
`< bound`: an optional leading `+`, then one or more ASCII digits, failing on
overflow.  A leading `-` is not accepted by the unsigned parser. -/
def parseRustNat (bound : Nat) (s : String) : Option Nat :=
  let cs := s.data
  let ds := match cs with
    | '+' :: rest => rest
    | _ => cs
  match ds with
  | [] => none
  | _ =>
    match digitsValue ds 0 with
    | none => none
    | some v => if v < bound then some v else none

/-- Eager in-order collection of parse results; `none` models the panic of
the first failing `.unwrap()`. -/
def mapOption (f : String → Option Nat) : List String → Option (List Nat)
  | [] => some []
  | s :: ss =>
    match f s with
    | none => none
    | some v =>
      match mapOption f ss with
      | none => none
      | some vs => some (v :: vs)

/-- `line.split(',').map(|s| s.trim().to_string()).collect()`: the cells of
one grid row line. -/
def splitTrim (line : String) : List String :=
  (splitComma line).map rustTrim

/-- `line.split(',').map(|s| s.trim().parse::<u32>().unwrap()).collect()`:
`none` models the panic of any failing `unwrap`. -/
def parseSize (line : String) : Option (List Nat) :=
  mapOption (fun s => parseRustNat u32Bound (rustTrim s)) (splitComma line)

/-- The same for the `usize` fields of a layer header line. -/
def parseHeader (line : String) : Option (List Nat) :=
  mapOption (fun s => parseRustNat usizeBound (rustTrim s)) (splitComma line)

/-- The layer loop of `parse_dzi` (lines 56-75): repeatedly read a header
line `cols,rows` and then exactly `rows` row lines; running out of lines, or
a header field failing to parse, or a header with fewer than two fields, is
an `.unwrap()` panic. -/
def parseLayers : List String → Except ParseErr (List DziLayer)
  | [] => .ok []
  | headerLine :: rest =>
    match parseHeader headerLine with
    | none => .error .panicked
    | some parts =>
      match parts with
      | cols :: rows :: _ =>
        if rows ≤ rest.length then
          match parseLayers (rest.drop rows) with
          | .error e => .error e
          | .ok ls => .ok (⟨(rest.take rows).map splitTrim, rows, cols⟩ :: ls)
        else .error .panicked
      | _ => .error .panicked
termination_by ls => ls.length
decreasing_by simp [List.length_drop]; omega

/-- `parse_dzi` from src/rust_impl/src/main.rs lines 41-82, over the line
list of the manifest text: discard the format line, parse the size line
(missing size line is the recoverable error; a bad or short size line is an
`.unwrap()` panic), then parse the layer sections until the input ends. -/
def parse_dzi (lines : List String) : Except ParseErr DziFile :=
  match lines with
  | [] => .error .noSizeLine
  | [_] => .error .noSizeLine
  | _fmt :: sizeLine :: rest =>
    match parseSize sizeLine with
    | none => .error .panicked
    | some parts =>
      match parts with
      | w :: h :: _ =>
        match parseLayers rest with
        | .error e => .error e
        | .ok layers => .ok ⟨w, h, layers⟩
      | _ => .error .panicked

/-- The per-layer target dimension of `run` (lines 185-187):
`(dim as f64 * 0.5f64.powi(i as i32 - 1)).round() as u32`.  For `i = 0` the
scale is exactly `2.0` and the float-to-u32 `as` cast saturates at
`u32::MAX`; for `i ≥ 1` the product `dim * 2^-(i-1)` is exact in f64 (the
mantissa `dim` has at most 32 bits) and `f64::round` rounds halves away from
zero, which for the nonnegative value `dim / 2^(i-1)` is
`(2 * dim + 2^(i-1)) / 2^i` in integer division. -/
def target_dim (dim : Nat) (i : Nat) : Nat :=
  if i = 0 then min (2 * dim) (u32Bound - 1)
  else (2 * dim + 2 ^ (i - 1)) / 2 ^ i

/-- The layer loop of `run` (lines 179-198) for one manifest group: `i` is
the index of the head layer; a layer with `i > 1` is skipped when
`enableLowerLayers` is false, otherwise the layer is composed with the target
dimensions of `target_dim` and a `?`-propagated error aborts.  The result
lists the output files written, in order. -/
def run_layers (enableLowerLayers : Bool) (tex : String → Option Image)
    (group : String) (width height : Nat) :
    Nat → List DziLayer → Except ComposeErr (List String)
  | _, [] => .ok []
  | i, layer :: rest =>
    if i > 1 ∧ ¬enableLowerLayers then
      run_layers enableLowerLayers tex group width height (i + 1) rest
    else
      match compose_layer tex layer.tiles i group (target_dim width i) (target_dim height i) with
      | .error e => .error e
      | .ok none => run_layers enableLowerLayers tex group width height (i + 1) rest
      | .ok (some out) =>
        match run_layers enableLowerLayers tex group width height (i + 1) rest with
        | .error e => .error e
        | .ok files => .ok (out.outFile :: files)

/-- Modelled from the spec: "when the flag is true, all layers of the
manifest are composed" — the same loop with the skip branch removed, used as
the reference behaviour that `run_layers true` must refine. -/
def composeAllLayers (tex : String → Option Image) (group : String)
    (width height : Nat) : Nat → List DziLayer → Except ComposeErr (List String)
  | _, [] => .ok []
  | i, layer :: rest =>
    match compose_layer tex layer.tiles i group (target_dim width i) (target_dim height i) with
    | .error e => .error e
    | .ok none => composeAllLayers tex group width height (i + 1) rest
    | .ok (some out) =>
      match composeAllLayers tex group width height (i + 1) rest with
      | .error e => .error e
      | .ok files => .ok (out.outFile :: files)

/-- Uniform-tile-size hypothesis for one row: every non-empty identifier in
the row names a tile present in the tile directory whose decoded dimensions
are `tw × th`. -/
def RowUniform (tex : String → Option Image) (row : List String) (tw th : Nat) : Prop :=
  ∀ name ∈ row, name ≠ "" →
    (tex (tileFile name)).map (fun img => (img.width, img.height)) = some (tw, th)

/-- Uniform-tile-size hypothesis: every non-empty identifier in the grid
names a tile present in the tile directory whose decoded dimensions are
`tw × th`. -/
def TilesUniform (tex : String → Option Image) (tiles : List (List String))
    (tw th : Nat) : Prop :=
  ∀ row ∈ tiles, RowUniform tex row tw th

/-- Truncation of every grid row to the length of the first row (the
composition never paints pixels from cells beyond that length). -/
def truncGrid (tiles : List (List String)) : List (List String) :=
  tiles.map (fun row => row.take (tiles.headD []).length)

/-! Concrete fixtures used by witnesses and counterexamples. -/

/-- A 1 × 1 opaque red tile image. -/
def exTile : Image := ⟨1, 1, fun _ _ => ⟨255, 0, 0, 255⟩⟩

/-- A tile directory holding exactly one file `t.png`, the 1 × 1 red tile. -/
def exTex : String → Option Image := fun f => if f = "t.png" then some exTile else none

/-- A single-cell layer referencing tile `t`. -/
def exLayer : DziLayer := ⟨[["t"]], 1, 1⟩

/-- A four-layer manifest, each layer the single-cell grid over tile `t`. -/
def exLayers4 : List DziLayer := [exLayer, exLayer, exLayer, exLayer]

/-- Placeholder output used by `outOf` on results that are not `ok some`. -/
def defaultOut : LayerOutput :=
  ⟨0, 0, Image.fromPixel 0 0 Rgba.transparent, Image.fromPixel 0 0 Rgba.transparent,
    Image.fromPixel 0 0 Rgba.transparent, "", ""⟩

/-- Extract the `LayerOutput` of a successful, non-empty composition. -/
def outOf (r : Except ComposeErr (Option LayerOutput)) : LayerOutput :=
  match r with
  | .ok (some o) => o
  | _ => defaultOut

/-- The composition of the single-cell layer over `exTex` with target 5 × 7. -/
def exOut : LayerOutput := outOf (compose_layer exTex [["t"]] 1 "g" 5 7)

/-- A uniform 2 × 2 grid with two tiles on the diagonal and two empty cells. -/
def c1wTiles : List (List String) := [["t", ""], ["", "t"]]

/-- The composition of `c1wTiles` over `exTex` with target 2 × 2. -/
def c1wOut : LayerOutput := outOf (compose_layer exTex c1wTiles 0 "g" 2 2)

/-- A tile directory with a 1 × 1 anchor tile `a` and an oversized 3 × 1
tile `b` (both opaque): tile sizes are NOT uniform. -/
def cTexA : String → Option Image := fun f =>
  if f = "a.png" then some ⟨1, 1, fun _ _ => ⟨255, 0, 0, 255⟩⟩
  else if f = "b.png" then some ⟨3, 1, fun _ _ => ⟨0, 255, 0, 255⟩⟩
  else none

/-- The composition of the one-row grid `a, b, <empty>` over `cTexA`: the
oversized tile `b` bleeds into the empty third cell's footprint. -/
def c1cOut : LayerOutput := outOf (compose_layer cTexA [["a", "b", ""]] 0 "g" 3 1)

/-- A tile directory with a 1 × 1 anchor tile `a` and a 1 × 2 (too tall)
tile `tall`, both opaque; no other file exists. -/
def cTexB : String → Option Image := fun f =>
  if f = "a.png" then some ⟨1, 1, fun _ _ => ⟨255, 0, 0, 255⟩⟩
  else if f = "tall.png" then some ⟨1, 2, fun _ _ => ⟨0, 0, 255, 255⟩⟩
  else none

/-- The composition of the ragged grid `[[a, tall], [a]]` over `cTexB`: the
too-tall tile covers the footprint of the missing cell (1, 1). -/
def c7cOut : LayerOutput := outOf (compose_layer cTexB [["a", "tall"], ["a"]] 0 "g" 2 2)

/-- A uniform ragged grid: the second row is shorter than the first. -/
def c7wTiles : List (List String) := [["t", ""], ["t"]]

/-- The composition of `c7wTiles` over `exTex` with target 2 × 2. -/
def c7wOut : LayerOutput := outOf (compose_layer exTex c7wTiles 0 "g" 2 2)

/-- A 2^26 × 1 opaque red tile (2^26 = 67108864, a valid PNG width). -/
def wideTile : Image := ⟨67108864, 1, fun _ _ => ⟨255, 0, 0, 255⟩⟩

/-- A 1 × 1 opaque blue tile. -/
def blueTile : Image := ⟨1, 1, fun _ _ => ⟨0, 0, 255, 255⟩⟩

/-- A tile directory with the wide anchor tile `t` and the small tile `b`. -/
def wideTex : String → Option Image := fun f =>
  if f = "t.png" then some wideTile
  else if f = "b.png" then some blueTile
  else none

/-- A single row of 65 cells over the 2^26-wide anchor: `65 * 2^26` exceeds
`u32::MAX`, so the u32 canvas width wraps to 2^26. -/
def c2cTiles : List (List String) := [("t" :: List.replicate 64 "")]

/-- The composition of `c2cTiles` over `wideTex`. -/
def c2cOut : LayerOutput := outOf (compose_layer wideTex c2cTiles 0 "g" 1 1)

/-- A grid whose second row has an excess cell `b` at column 64: the u32
offset `64 * 2^26` wraps to 0, repainting inside the canvas. -/
def c7dTiles : List (List String) := [["t"], List.replicate 64 "" ++ ["b"]]

/-- The composition of `c7dTiles` over `wideTex`. -/
def c7dOut : LayerOutput := outOf (compose_layer wideTex c7dTiles 0 "g" 1 2)

/-- The composition of the cols-truncated `c7dTiles` over `wideTex`. -/
def c7dOutT : LayerOutput := outOf (compose_layer wideTex (truncGrid c7dTiles) 0 "g" 1 2)

/-! ## Basic lemmas about the image operations -/

theorem overlayImg_width (bot top : Image) (ox oy : Nat) :
    (overlayImg bot top ox oy).width = bot.width := rfl

theorem overlayImg_height (bot top : Image) (ox oy : Nat) :
    (overlayImg bot top ox oy).height = bot.height := rfl

/-- Blending an opaque pixel onto any pixel copies the opaque pixel (the
crate's second short-circuit branch); blending a pixel of alpha 0 keeps the
bottom pixel (the first). -/
theorem blend_opaque (bot top : Rgba) (h : top.a = 255) : blend bot top = top := by
  simp [blend, h]

/-- `u32` multiplication `a * tw` does not wrap when `(a + 1) * tw` fits. -/
theorem offset_mod_eq {a tw : Nat} (h : (a + 1) * tw ≤ u32Bound) :
    a * tw % u32Bound = a * tw := by
  apply Nat.mod_eq_of_lt
  rcases Nat.eq_zero_or_pos tw with h0 | hpos
  · subst h0
    simp [u32Bound]
  · have h2 : a * tw + tw ≤ u32Bound := by
      calc a * tw + tw = (a + 1) * tw := by ring
        _ ≤ u32Bound := h
    omega

/-- A pixel inside the clipped footprint of an overlay is the blend of the
previous canvas pixel with the corresponding tile pixel. -/
theorem overlayImg_pix_in (bot top : Image) (ox oy i j : Nat)
    (hi : i < top.width) (hj : j < top.height)
    (hbw : ox + i < bot.width) (hbh : oy + j < bot.height) :
    (overlayImg bot top ox oy).pix (ox + i) (oy + j) =
      blend (bot.pix (ox + i) (oy + j)) (top.pix i j) := by
  simp only [overlayImg]
  rw [if_pos]
  · congr 2 <;> omega
  · refine ⟨by omega, by omega, by omega, by omega, hbw, hbh⟩

/-- A pixel outside the footprint of an overlay is unchanged. -/
theorem overlayImg_pix_out (bot top : Image) (ox oy px py : Nat)
    (h : px < ox ∨ ox + top.width ≤ px ∨ py < oy ∨ oy + top.height ≤ py) :
    (overlayImg bot top ox oy).pix px py = bot.pix px py := by
  simp only [overlayImg]
  rw [if_neg]
  rintro ⟨h1, h2, h3, h4, h5, h6⟩
  omega

/-- An overlay whose horizontal offset is at or beyond the right edge of the
canvas changes nothing at all. -/
theorem overlayImg_offscreen (bot top : Image) (ox oy : Nat)
    (h : bot.width ≤ ox) : overlayImg bot top ox oy = bot := by
  cases bot with
  | mk w ht px =>
    simp only [overlayImg]
    congr 1
    funext px py
    rw [if_neg]
    rintro ⟨h1, h2, h3, h4, h5, h6⟩
    simp at h5 h
    omega

/-! ## Dimension preservation through the drawing loops -/

theorem drawRow_dims {tex : String → Option Image} {tw th y : Nat} :
    ∀ (row : List String) (x : Nat) (canvas c2 : Image),
    drawRow tex tw th y x row canvas = .ok c2 →
    c2.width = canvas.width ∧ c2.height = canvas.height := by
  intro row
  induction row with
  | nil =>
    intro x canvas c2 h
    simp only [drawRow] at h
    cases h
    exact ⟨rfl, rfl⟩
  | cons name rest ih =>
    intro x canvas c2 h
    simp only [drawRow] at h
    by_cases hn : name = ""
    · rw [if_pos hn] at h
      exact ih (x + 1) canvas c2 h
    · rw [if_neg hn] at h
      cases hl : load_tile tex (tileFile name) with
      | error e => rw [hl] at h; cases h
      | ok img =>
        rw [hl] at h
        have := ih (x + 1) _ c2 h
        rwa [overlayImg_width, overlayImg_height] at this

theorem drawGrid_dims {tex : String → Option Image} {tw th : Nat} :
    ∀ (rows : List (List String)) (y : Nat) (canvas c2 : Image),
    drawGrid tex tw th y rows canvas = .ok c2 →
    c2.width = canvas.width ∧ c2.height = canvas.height := by
  intro rows
  induction rows with
  | nil =>
    intro y canvas c2 h
    simp only [drawGrid] at h
    cases h
    exact ⟨rfl, rfl⟩
  | cons row rest ih =>
    intro y canvas c2 h
    simp only [drawGrid] at h
    cases hr : drawRow tex tw th y 0 row canvas with
    | error e => rw [hr] at h; cases h
    | ok c1 =>
      rw [hr] at h
      have h1 := drawRow_dims row 0 canvas c1 hr
      have h2 := ih (y + 1) c1 c2 h
      exact ⟨h2.1.trans h1.1, h2.2.trans h1.2⟩

/-- Inversion of a successful, non-empty `compose_layer`: the grid has a
non-empty first row, the anchor tile loads, the grid draws onto the
transparent canvas of the computed size, and the output fields are exactly
the canvas, its crop, and the output names. -/
theorem compose_layer_ok_some {tex : String → Option Image}
    {tiles : List (List String)} {li : Nat} {g : String} {fw fh : Nat}
    {out : LayerOutput}
    (h : compose_layer tex tiles li g fw fh = .ok (some out)) :
    ∃ firstName rtail rrest anchor canvas,
      tiles = (firstName :: rtail) :: rrest ∧
      tex (tileFile firstName) = some anchor ∧
      drawGrid tex anchor.width anchor.height 0 tiles
        (Image.fromPixel ((firstName :: rtail).length * anchor.width % u32Bound)
          (tiles.length * anchor.height % u32Bound) Rgba.transparent) = .ok canvas ∧
      out = ⟨anchor.width, anchor.height,
        Image.fromPixel ((firstName :: rtail).length * anchor.width % u32Bound)
          (tiles.length * anchor.height % u32Bound) Rgba.transparent,
        canvas,
        cropImm canvas (min fw ((firstName :: rtail).length * anchor.width % u32Bound))
          (min fh (tiles.length * anchor.height % u32Bound)),
        g, g ++ "/layer_" ++ toString li ++ ".png"⟩ := by
  cases tiles with
  | nil => simp [compose_layer] at h
  | cons r0 rrest =>
    cases r0 with
    | nil => simp [compose_layer] at h
    | cons firstName rtail =>
      simp only [compose_layer, load_tile] at h
      cases htex : tex (tileFile firstName) with
      | none => rw [htex] at h; cases h
      | some anchor =>
        rw [htex] at h
        simp only [] at h
        cases hdraw : drawGrid tex anchor.width anchor.height 0
            ((firstName :: rtail) :: rrest)
            (Image.fromPixel ((firstName :: rtail).length * anchor.width % u32Bound)
              (((firstName :: rtail) :: rrest).length * anchor.height % u32Bound)
              Rgba.transparent) with
        | error e => rw [hdraw] at h; cases h
        | ok canvas =>
          rw [hdraw] at h
          cases h
          exact ⟨firstName, rtail, rrest, anchor, canvas, rfl, htex, hdraw, rfl⟩

/-! ## Frame and paint lemmas for the drawing loops -/

theorem load_tile_ok {tex : String → Option Image} {f : String} {img : Image}
    (h : load_tile tex f = .ok img) : tex f = some img := by
  unfold load_tile at h
  cases ht : tex f with
  | none => rw [ht] at h; cases h
  | some i => rw [ht] at h; cases h; rfl

theorem rowUniform_tail {tex : String → Option Image} {name : String}
    {rest : List String} {tw th : Nat} (h : RowUniform tex (name :: rest) tw th) :
    RowUniform tex rest tw th :=
  fun n hn => h n (List.mem_cons_of_mem _ hn)

/-- Only the two columns `c` with `c * tw ≤ px < c * tw + tw` coincide. -/
theorem cell_unique {tw c k i : Nat} (hi : i < tw)
    (h1 : k * tw ≤ c * tw + i) (h2 : c * tw + i < k * tw + tw) : k = c := by
  rcases Nat.lt_trichotomy k c with h | h | h
  · exfalso
    have hk : (k + 1) * tw ≤ c * tw := Nat.mul_le_mul_right tw h
    have e : (k + 1) * tw = k * tw + tw := by ring
    set A := k * tw with hA
    set B := c * tw with hB
    omega
  · exact h
  · exfalso
    have hk : (c + 1) * tw ≤ k * tw := Nat.mul_le_mul_right tw h
    have e : (c + 1) * tw = c * tw + tw := by ring
    set A := k * tw with hA
    set B := c * tw with hB
    omega

/-- A pixel that lies in no non-empty cell's footprint of the row (and in
particular any pixel outside the row's horizontal band) is unchanged by
`drawRow`, provided the cells' u32 offsets do not wrap. -/
theorem drawRow_untouched {tex : String → Option Image} {tw th y : Nat} :
    ∀ (row : List String) (x : Nat) (canvas c2 : Image),
    drawRow tex tw th y x row canvas = .ok c2 →
    RowUniform tex row tw th →
    (x + row.length) * tw ≤ u32Bound →
    (y + 1) * th ≤ u32Bound →
    ∀ px py,
      (py < y * th ∨ y * th + th ≤ py ∨
        (∀ k name, row.get? k = some name → name ≠ "" →
          ¬((x + k) * tw ≤ px ∧ px < (x + k) * tw + tw))) →
      c2.pix px py = canvas.pix px py := by
  intro row
  induction row with
  | nil =>
    intro x canvas c2 h _ _ _ px py _
    simp only [drawRow] at h
    cases h
    rfl
  | cons name rest ih =>
    intro x canvas c2 h hu hbx hby px py hcond
    simp only [drawRow] at h
    have hbx2 : (x + 1 + rest.length) * tw ≤ u32Bound := by
      have e : x + 1 + rest.length = x + (name :: rest).length := by
        simp only [List.length_cons]
        omega
      rw [e]
      exact hbx
    have hcond2 : py < y * th ∨ y * th + th ≤ py ∨
        (∀ k n, rest.get? k = some n → n ≠ "" →
          ¬((x + 1 + k) * tw ≤ px ∧ px < (x + 1 + k) * tw + tw)) := by
      rcases hcond with h1 | h2 | h3
      · exact Or.inl h1
      · exact Or.inr (Or.inl h2)
      · refine Or.inr (Or.inr fun k n hk hn => ?_)
        have : x + 1 + k = x + (k + 1) := by omega
        rw [this]
        exact h3 (k + 1) n (by simpa using hk) hn
    by_cases hn : name = ""
    · rw [if_pos hn] at h
      exact ih (x + 1) canvas c2 h (rowUniform_tail hu) hbx2 hby px py hcond2
    · rw [if_neg hn] at h
      cases hl : load_tile tex (tileFile name) with
      | error e => rw [hl] at h; cases h
      | ok img =>
        rw [hl] at h
        have hx1 : (x + 1) * tw ≤ u32Bound := by
          refine le_trans (Nat.mul_le_mul_right tw ?_) hbx
          simp only [List.length_cons]
          omega
        have hox : x * tw % u32Bound = x * tw := offset_mod_eq hx1
        have hoy : y * th % u32Bound = y * th := offset_mod_eq hby
        rw [hox, hoy] at h
        have himg : (tex (tileFile name)).map (fun i => (i.width, i.height)) = some (tw, th) :=
          hu name (List.mem_cons_self _ _) hn
        rw [load_tile_ok hl] at himg
        simp only [Option.map_some'] at himg
        have hw : img.width = tw := by
          have := congrArg Prod.fst (Option.some.inj himg); simpa using this
        have hh : img.height = th := by
          have := congrArg Prod.snd (Option.some.inj himg); simpa using this
        have step := ih (x + 1) _ c2 h (rowUniform_tail hu) hbx2 hby px py hcond2
        rw [step]
        apply overlayImg_pix_out
        rw [hw, hh]
        rcases hcond with h1 | h2 | h3
        · omega
        · omega
        · have := h3 0 name (by simp) hn
          simp only [Nat.add_zero] at this
          omega

/-- The pixel at offset `(i, j)` inside the footprint of the non-empty cell
at absolute column `x + c` of a successfully drawn row is the blend of the
incoming canvas pixel with the tile pixel, provided the cells' u32 offsets
do not wrap. -/
theorem drawRow_paint {tex : String → Option Image} {tw th y : Nat} :
    ∀ (row : List String) (x : Nat) (canvas c2 : Image),
    drawRow tex tw th y x row canvas = .ok c2 →
    RowUniform tex row tw th →
    (x + row.length) * tw ≤ u32Bound →
    (y + 1) * th ≤ u32Bound →
    ∀ c name img, row.get? c = some name → name ≠ "" →
      tex (tileFile name) = some img →
      ∀ i j, i < tw → j < th →
        (x + c) * tw + i < canvas.width → y * th + j < canvas.height →
        c2.pix ((x + c) * tw + i) (y * th + j) =
          blend (canvas.pix ((x + c) * tw + i) (y * th + j)) (img.pix i j) := by
  intro row
  induction row with
  | nil =>
    intro x canvas c2 h hu _ _ c name img hc
    simp at hc
  | cons name0 rest ih =>
    intro x canvas c2 h hu hbx hby c name img hc hn htex i j hi hj hbw hbh
    simp only [drawRow] at h
    have hbx2 : (x + 1 + rest.length) * tw ≤ u32Bound := by
      have e : x + 1 + rest.length = x + (name0 :: rest).length := by
        simp only [List.length_cons]
        omega
      rw [e]
      exact hbx
    have hx1 : (x + 1) * tw ≤ u32Bound := by
      refine le_trans (Nat.mul_le_mul_right tw ?_) hbx
      simp only [List.length_cons]
      omega
    have hox : x * tw % u32Bound = x * tw := offset_mod_eq hx1
    have hoy : y * th % u32Bound = y * th := offset_mod_eq hby
    cases c with
    | zero =>
      simp only [List.get?_cons_zero, Option.some.injEq] at hc
      have hc2 : name = name0 := hc.symm
      subst hc2
      rw [if_neg hn] at h
      cases hl : load_tile tex (tileFile name) with
      | error e => rw [hl] at h; cases h
      | ok img0 =>
        rw [hl, hox, hoy] at h
        have himg0 : tex (tileFile name) = some img0 := load_tile_ok hl
        rw [htex] at himg0
        cases himg0
        have himg : (tex (tileFile name)).map (fun i => (i.width, i.height)) = some (tw, th) :=
          hu name (List.mem_cons_self _ _) hn
        rw [htex] at himg
        simp only [Option.map_some'] at himg
        have hw : img.width = tw := by
          have := congrArg Prod.fst (Option.some.inj himg); simpa using this
        have hh : img.height = th := by
          have := congrArg Prod.snd (Option.some.inj himg); simpa using this
        have huntouched := drawRow_untouched rest (x + 1) _ c2 h (rowUniform_tail hu)
          hbx2 hby ((x + 0) * tw + i) (y * th + j)
          (Or.inr (Or.inr (fun k n hk hn2 => by
            have hge : (x + 1) * tw ≤ (x + 1 + k) * tw := Nat.mul_le_mul_right tw (by omega)
            have e1 : (x + 1) * tw = x * tw + tw := by ring
            intro hcontra
            have := hcontra.1
            set A := (x + 1 + k) * tw with hA
            set B := x * tw with hB
            simp only [Nat.add_zero] at this ⊢
            omega)))
        rw [huntouched]
        simp only [Nat.add_zero]
        have hin := overlayImg_pix_in canvas img (x * tw) (y * th) i j
          (by omega) (by omega) (by simpa using hbw) (by simpa using hbh)
        simpa using hin
    | succ k =>
      simp only [List.get?_cons_succ] at hc
      by_cases hn0 : name0 = ""
      · rw [if_pos hn0] at h
        have e : x + 1 + k = x + (k + 1) := by omega
        rw [← e] at hbw
        have := ih (x + 1) canvas c2 h (rowUniform_tail hu) hbx2 hby k name img hc hn htex
          i j hi hj hbw hbh
        rw [e] at this
        exact this
      · rw [if_neg hn0] at h
        cases hl : load_tile tex (tileFile name0) with
        | error e => rw [hl] at h; cases h
        | ok img0 =>
          rw [hl, hox, hoy] at h
          have himg0 : (tex (tileFile name0)).map (fun i => (i.width, i.height)) = some (tw, th) :=
            hu name0 (List.mem_cons_self _ _) hn0
          rw [load_tile_ok hl] at himg0
          simp only [Option.map_some'] at himg0
          have hw0 : img0.width = tw := by
            have := congrArg Prod.fst (Option.some.inj himg0); simpa using this
          have step := ih (x + 1) _ c2 h (rowUniform_tail hu) hbx2 hby k name img hc hn htex
            i j hi hj
            (by rw [overlayImg_width]
                have e : x + 1 + k = x + (k + 1) := by omega
                rw [e]; exact hbw)
            (by rw [overlayImg_height]; exact hbh)
          have e : x + 1 + k = x + (k + 1) := by omega
          rw [e] at step
          rw [step]
          congr 1
          apply overlayImg_pix_out
          rw [hw0]
          have hge : (x + 1) * tw ≤ (x + (k + 1)) * tw := Nat.mul_le_mul_right tw (by omega)
          have e1 : (x + 1) * tw = x * tw + tw := by ring
          set A := (x + (k + 1)) * tw with hA
          set B := x * tw with hB
          omega

/-- A pixel that lies in no non-empty cell's footprint of any row of the
grid is unchanged by `drawGrid`, provided the cells' u32 offsets do not
wrap. -/
theorem drawGrid_untouched {tex : String → Option Image} {tw th : Nat} :
    ∀ (rows : List (List String)) (y : Nat) (canvas c2 : Image),
    drawGrid tex tw th y rows canvas = .ok c2 →
    (∀ row ∈ rows, RowUniform tex row tw th) →
    (∀ row ∈ rows, row.length * tw ≤ u32Bound) →
    (y + rows.length) * th ≤ u32Bound →
    ∀ px py,
      (∀ r row, rows.get? r = some row →
        ∀ k name, row.get? k = some name → name ≠ "" →
          ¬(k * tw ≤ px ∧ px < k * tw + tw ∧ (y + r) * th ≤ py ∧ py < (y + r) * th + th)) →
      c2.pix px py = canvas.pix px py := by
  intro rows
  induction rows with
  | nil =>
    intro y canvas c2 h _ _ _ px py _
    simp only [drawGrid] at h
    cases h
    rfl
  | cons row rest ih =>
    intro y canvas c2 h hu hxs hys px py hcond
    simp only [drawGrid] at h
    have hbx0 : (0 + row.length) * tw ≤ u32Bound := by
      simpa using hxs row (List.mem_cons_self _ _)
    have hby0 : (y + 1) * th ≤ u32Bound := by
      refine le_trans (Nat.mul_le_mul_right th ?_) hys
      simp only [List.length_cons]
      omega
    have hys2 : (y + 1 + rest.length) * th ≤ u32Bound := by
      have e : y + 1 + rest.length = y + (row :: rest).length := by
        simp only [List.length_cons]
        omega
      rw [e]
      exact hys
    cases hr : drawRow tex tw th y 0 row canvas with
    | error e => rw [hr] at h; cases h
    | ok c1 =>
      rw [hr] at h
      have step2 : c2.pix px py = c1.pix px py := by
        refine ih (y + 1) c1 c2 h (fun r2 hr2 => hu r2 (List.mem_cons_of_mem _ hr2))
          (fun r2 hr2 => hxs r2 (List.mem_cons_of_mem _ hr2)) hys2
          px py (fun r row2 hrow2 k name hk hn => ?_)
        have e : y + 1 + r = y + (r + 1) := by omega
        rw [e]
        exact hcond (r + 1) row2 (by simpa using hrow2) k name hk hn
      rw [step2]
      by_cases hband : y * th ≤ py ∧ py < y * th + th
      · refine drawRow_untouched row 0 canvas c1 hr (hu row (List.mem_cons_self _ _))
          hbx0 hby0 px py (Or.inr (Or.inr fun k name hk hn => ?_))
        have := hcond 0 row (by simp) k name hk hn
        simp only [Nat.add_zero] at this
        simp only [Nat.zero_add]
        omega
      · refine drawRow_untouched row 0 canvas c1 hr (hu row (List.mem_cons_self _ _))
          hbx0 hby0 px py ?_
        omega

/-- The pixel at offset `(i, j)` inside the footprint of the non-empty cell
`(y + r, c)` of a successfully drawn grid is the blend of the incoming
canvas pixel with the tile pixel, provided the cells' u32 offsets do not
wrap. -/
theorem drawGrid_paint {tex : String → Option Image} {tw th : Nat} :
    ∀ (rows : List (List String)) (y : Nat) (canvas c2 : Image),
    drawGrid tex tw th y rows canvas = .ok c2 →
    (∀ row ∈ rows, RowUniform tex row tw th) →
    (∀ row ∈ rows, row.length * tw ≤ u32Bound) →
    (y + rows.length) * th ≤ u32Bound →
    ∀ r row, rows.get? r = some row →
    ∀ c name img, row.get? c = some name → name ≠ "" → tex (tileFile name) = some img →
    ∀ i j, i < tw → j < th →
      c * tw + i < canvas.width → (y + r) * th + j < canvas.height →
      c2.pix (c * tw + i) ((y + r) * th + j) =
        blend (canvas.pix (c * tw + i) ((y + r) * th + j)) (img.pix i j) := by
  intro rows
  induction rows with
  | nil =>
    intro y canvas c2 h hu _ _ r row hrow
    simp at hrow
  | cons row0 rest ih =>
    intro y canvas c2 h hu hxs hys r row hrow c name img hc hn htex i j hi hj hbw hbh
    simp only [drawGrid] at h
    have hbx0 : (0 + row0.length) * tw ≤ u32Bound := by
      simpa using hxs row0 (List.mem_cons_self _ _)
    have hby0 : (y + 1) * th ≤ u32Bound := by
      refine le_trans (Nat.mul_le_mul_right th ?_) hys
      simp only [List.length_cons]
      omega
    have hys2 : (y + 1 + rest.length) * th ≤ u32Bound := by
      have e : y + 1 + rest.length = y + (row0 :: rest).length := by
        simp only [List.length_cons]
        omega
      rw [e]
      exact hys
    cases hr : drawRow tex tw th y 0 row0 canvas with
    | error e => rw [hr] at h; cases h
    | ok c1 =>
      rw [hr] at h
      have hdims := drawRow_dims row0 0 canvas c1 hr
      cases r with
      | zero =>
        simp only [List.get?_cons_zero, Option.some.injEq] at hrow
        have hrow2 : row = row0 := hrow.symm
        subst hrow2
        have step2 : c2.pix (c * tw + i) ((y + 0) * th + j) =
            c1.pix (c * tw + i) ((y + 0) * th + j) := by
          refine drawGrid_untouched rest (y + 1) c1 c2 h
            (fun r2 hr2 => hu r2 (List.mem_cons_of_mem _ hr2))
            (fun r2 hr2 => hxs r2 (List.mem_cons_of_mem _ hr2)) hys2
            _ _ (fun r2 row2 hrow2 k name2 hk hn2 => ?_)
          intro hcontra
          have h4 := hcontra.2.2.1
          have hge : (y + 1) * th ≤ (y + 1 + r2) * th := Nat.mul_le_mul_right th (by omega)
          have e1 : (y + 1) * th = y * th + th := by ring
          set A := (y + 1 + r2) * th with hA
          set B := y * th with hB
          simp only [Nat.add_zero] at h4 ⊢
          omega
        rw [step2]
        have := drawRow_paint row 0 canvas c1 hr (hu row (List.mem_cons_self _ _))
          hbx0 hby0 c name img hc hn htex i j hi hj
          (by simpa using hbw) (by simpa using hbh)
        simpa using this
      | succ r1 =>
        simp only [List.get?_cons_succ] at hrow
        have e : y + 1 + r1 = y + (r1 + 1) := by omega
        rw [← e] at hbh
        have step := ih (y + 1) c1 c2 h (fun r2 hr2 => hu r2 (List.mem_cons_of_mem _ hr2))
          (fun r2 hr2 => hxs r2 (List.mem_cons_of_mem _ hr2)) hys2
          r1 row hrow c name img hc hn htex i j hi hj
          (by rw [hdims.1]; exact hbw) (by rw [hdims.2]; exact hbh)
        rw [e] at step
        rw [step]
        congr 1
        refine drawRow_untouched row0 0 canvas c1 hr (hu row0 (List.mem_cons_self _ _))
          hbx0 hby0 _ _ ?_
        have hge : (y + 1) * th ≤ (y + (r1 + 1)) * th := Nat.mul_le_mul_right th (by omega)
        have e1 : (y + 1) * th = y * th + th := by ring
        set A := (y + (r1 + 1)) * th with hA
        set B := y * th with hB
        omega

/-! ## Truncation: cells beyond the first row's length paint nothing -/

theorem drawRow_append {tex : String → Option Image} {tw th y : Nat} :
    ∀ (r1 r2 : List String) (x : Nat) (canvas : Image),
    drawRow tex tw th y x (r1 ++ r2) canvas =
      match drawRow tex tw th y x r1 canvas with
      | .error e => .error e
      | .ok c1 => drawRow tex tw th y (x + r1.length) r2 c1 := by
  intro r1
  induction r1 with
  | nil =>
    intro r2 x canvas
    simp [drawRow]
  | cons name rest ih =>
    intro r2 x canvas
    rw [List.length_cons]
    have e2 : x + (rest.length + 1) = x + 1 + rest.length := by omega
    rw [e2]
    simp only [List.cons_append, drawRow]
    by_cases hn : name = ""
    · simp only [if_pos hn]
      exact ih r2 (x + 1) canvas
    · simp only [if_neg hn]
      cases hl : load_tile tex (tileFile name) with
      | error e => rfl
      | ok img =>
        exact ih r2 (x + 1)
          (overlayImg canvas img (x * tw % u32Bound) (y * th % u32Bound))

theorem drawRow_offscreen {tex : String → Option Image} {tw th y : Nat} :
    ∀ (row : List String) (x : Nat) (canvas : Image),
    canvas.width ≤ x * tw →
    (x + row.length) * tw ≤ u32Bound →
    drawRow tex tw th y x row canvas = .ok canvas ∨
    ∃ e, drawRow tex tw th y x row canvas = .error e := by
  intro row
  induction row with
  | nil =>
    intro x canvas h _
    exact Or.inl rfl
  | cons name rest ih =>
    intro x canvas h hb
    have hx1 : canvas.width ≤ (x + 1) * tw :=
      le_trans h (Nat.mul_le_mul_right tw (by omega))
    have hb2 : (x + 1 + rest.length) * tw ≤ u32Bound := by
      have e : x + 1 + rest.length = x + (name :: rest).length := by
        simp only [List.length_cons]
        omega
      rw [e]
      exact hb
    simp only [drawRow]
    by_cases hn : name = ""
    · rw [if_pos hn]
      exact ih (x + 1) canvas hx1 hb2
    · rw [if_neg hn]
      cases hl : load_tile tex (tileFile name) with
      | error e => exact Or.inr ⟨e, rfl⟩
      | ok img =>
        show drawRow tex tw th y (x + 1) rest
            (overlayImg canvas img (x * tw % u32Bound) (y * th % u32Bound)) =
            Except.ok canvas ∨
          ∃ e, drawRow tex tw th y (x + 1) rest
            (overlayImg canvas img (x * tw % u32Bound) (y * th % u32Bound)) =
            Except.error e
        have hxw : (x + 1) * tw ≤ u32Bound := by
          refine le_trans (Nat.mul_le_mul_right tw ?_) hb
          simp only [List.length_cons]
          omega
        rw [offset_mod_eq hxw]
        rw [overlayImg_offscreen canvas img (x * tw) _ h]
        exact ih (x + 1) canvas hx1 hb2

theorem drawRow_take {tex : String → Option Image} {tw th y cols : Nat} :
    ∀ (row : List String) (canvas c2 : Image),
    canvas.width = cols * tw % u32Bound →
    row.length * tw ≤ u32Bound →
    drawRow tex tw th y 0 row canvas = .ok c2 →
    drawRow tex tw th y 0 (row.take cols) canvas = .ok c2 := by
  intro row canvas c2 hw hb h
  rcases le_or_lt row.length cols with hle | hlt
  · rw [List.take_of_length_le hle]
    exact h
  · have hsplit : row.take cols ++ row.drop cols = row := List.take_append_drop cols row
    rw [← hsplit, drawRow_append] at h
    cases h1 : drawRow tex tw th y 0 (row.take cols) canvas with
    | error e => rw [h1] at h; cases h
    | ok c1 =>
      rw [h1] at h
      have hlen : (row.take cols).length = cols := by
        simp [List.length_take]
        omega
      have hc1w : c1.width = canvas.width := (drawRow_dims _ _ _ _ h1).1
      change drawRow tex tw th y (0 + (row.take cols).length) (row.drop cols) c1 =
        Except.ok c2 at h
      have hofb : (0 + (row.take cols).length + (row.drop cols).length) * tw ≤ u32Bound := by
        have e : 0 + (row.take cols).length + (row.drop cols).length = row.length := by
          simp only [hlen, List.length_drop, Nat.zero_add]
          omega
        rw [e]
        exact hb
      have hoff := @drawRow_offscreen tex tw th y (row.drop cols)
        (0 + (row.take cols).length) c1
        (by rw [hc1w, hw]
            simpa [hlen] using Nat.mod_le (cols * tw) u32Bound)
        hofb
      rcases hoff with hok | ⟨e, he⟩
      · rw [hok] at h
        cases h
        rfl
      · rw [he] at h
        cases h

theorem drawGrid_take {tex : String → Option Image} {tw th cols : Nat} :
    ∀ (rows : List (List String)) (y : Nat) (canvas c2 : Image),
    canvas.width = cols * tw % u32Bound →
    (∀ row ∈ rows, row.length * tw ≤ u32Bound) →
    drawGrid tex tw th y rows canvas = .ok c2 →
    drawGrid tex tw th y (rows.map (fun row => row.take cols)) canvas = .ok c2 := by
  intro rows
  induction rows with
  | nil =>
    intro y canvas c2 _ _ h
    simpa using h
  | cons row rest ih =>
    intro y canvas c2 hw hbs h
    simp only [drawGrid] at h
    cases hr : drawRow tex tw th y 0 row canvas with
    | error e => rw [hr] at h; cases h
    | ok c1 =>
      rw [hr] at h
      simp only [List.map_cons, drawGrid]
      rw [drawRow_take row canvas c1 hw (hbs row (List.mem_cons_self _ _)) hr]
      exact ih (y + 1) c1 c2 ((drawRow_dims _ _ _ _ hr).1.trans hw)
        (fun r2 hr2 => hbs r2 (List.mem_cons_of_mem _ hr2)) h

/-! ## Claim C1: painting and the transparency of empty cells -/

/-- C1 counterexample: the claim asserts that an empty-identifier cell's
footprint is fully transparent "regardless of neighboring tiles".  With the
non-uniform tile directory `cTexA` (anchor `a` is 1 × 1, neighbor `b` is
3 × 1), composing the single-row grid `a, b, <empty>` succeeds, the empty
cell (0, 2) has its footprint inside the canvas, yet its footprint pixel
(2, 0) is the opaque green of the oversized neighbor, not transparent. -/
theorem claim_C1_counterexample :
    compose_layer cTexA [["a", "b", ""]] 0 "g" 3 1 = .ok (some c1cOut) ∧
    [["a", "b", ""]].get? 0 = some ["a", "b", ""] ∧
    ["a", "b", ""].get? 2 = some "" ∧
    0 < c1cOut.tileW ∧ 0 < c1cOut.tileH ∧
    2 * c1cOut.tileW + 0 < c1cOut.canvas.width ∧
    0 * c1cOut.tileH + 0 < c1cOut.canvas.height ∧
    c1cOut.canvas.pix (2 * c1cOut.tileW + 0) (0 * c1cOut.tileH + 0) ≠ Rgba.transparent :=
  ⟨rfl, rfl, rfl, by decide, by decide, by decide, by decide, by decide⟩

/-- C1 (amended with the uniform-tile-size hypothesis of the data model and
the proviso that the cells' u32 offsets do not wrap): for every successfully
composed layer whose loaded tiles all have the anchor tile's dimensions and
whose cell offsets `col * tileWidth` / `row * tileHeight` fit in u32, every
cell holding a non-empty identifier has the named tile image painted onto
the canvas at pixel offset `(col * tileWidth, row * tileHeight)` — each
footprint pixel is the crate's overlay blend of the tile pixel onto the
transparent canvas — and every cell holding the empty identifier leaves the
canvas fully transparent (all channels 0, alpha 0) on its whole footprint,
regardless of which tiles occupy neighboring cells. -/
theorem claim_C1_amended_paint_uniform (tex : String → Option Image)
    (tiles : List (List String)) (li : Nat) (g : String) (fw fh : Nat)
    (out : LayerOutput)
    (hok : compose_layer tex tiles li g fw fh = .ok (some out))
    (hunif : TilesUniform tex tiles out.tileW out.tileH)
    (hxb : ∀ r row, tiles.get? r = some row → row.length * out.tileW ≤ u32Bound)
    (hyb : tiles.length * out.tileH ≤ u32Bound) :
    (∀ r row c name img, tiles.get? r = some row → row.get? c = some name →
      name ≠ "" → tex (tileFile name) = some img →
      ∀ i j, i < out.tileW → j < out.tileH →
        c * out.tileW + i < out.canvas.width →
        r * out.tileH + j < out.canvas.height →
        out.canvas.pix (c * out.tileW + i) (r * out.tileH + j) =
          blend Rgba.transparent (img.pix i j)) ∧
    (∀ r row c, tiles.get? r = some row → row.get? c = some "" →
      ∀ i j, i < out.tileW → j < out.tileH →
        c * out.tileW + i < out.canvas.width →
        r * out.tileH + j < out.canvas.height →
        out.canvas.pix (c * out.tileW + i) (r * out.tileH + j) = Rgba.transparent) := by
  obtain ⟨f, rt, rr, anchor, canvas, heq, htex, hdraw, hout⟩ := compose_layer_ok_some hok
  subst heq
  subst hout
  have hxb2 : ∀ row2 ∈ (f :: rt) :: rr, row2.length * anchor.width ≤ u32Bound := by
    intro row2 hmem
    obtain ⟨n, hn⟩ := List.mem_iff_get?.mp hmem
    exact hxb n row2 hn
  have hyb2 : (0 + ((f :: rt) :: rr).length) * anchor.height ≤ u32Bound := by
    simpa using hyb
  have hdims := drawGrid_dims _ _ _ _ hdraw
  simp only [Image.fromPixel] at hdims
  constructor
  · intro r row c name img hrow hc hn htex2 i j hi hj hbw hbh
    have := drawGrid_paint ((f :: rt) :: rr) 0 _ canvas hdraw hunif hxb2 hyb2 r row hrow
      c name img hc hn htex2 i j hi hj
      (by simpa [Image.fromPixel, hdims.1] using hbw)
      (by simpa [Image.fromPixel, hdims.2] using hbh)
    simpa [Image.fromPixel] using this
  · intro r row c hrow hc i j hi hj hbw hbh
    have := drawGrid_untouched ((f :: rt) :: rr) 0 _ canvas hdraw hunif hxb2 hyb2
      (c * anchor.width + i) (r * anchor.height + j)
      (fun r2 row2 hrow2 k name2 hk hn2 => by
        intro hcontra
        obtain ⟨hx1, hx2, hy1, hy2⟩ := hcontra
        simp only [Nat.zero_add] at hy1 hy2
        have hkc : k = c := cell_unique hi hx1 hx2
        have hr2r : r2 = r := cell_unique hj hy1 hy2
        subst hkc
        subst hr2r
        rw [hrow] at hrow2
        cases hrow2
        rw [hc] at hk
        cases hk
        exact hn2 rfl)
    simpa [Image.fromPixel] using this

/-- Witness for the amended C1 at the uniform diagonal grid `c1wTiles`:
the tile cell (0, 0) is painted with the tile pixel and the empty cell
(0, 1) stays transparent. -/
theorem claim_C1_witness :
    c1wOut.canvas.pix (0 * c1wOut.tileW + 0) (0 * c1wOut.tileH + 0) =
      blend Rgba.transparent (exTile.pix 0 0) ∧
    c1wOut.canvas.pix (1 * c1wOut.tileW + 0) (0 * c1wOut.tileH + 0) = Rgba.transparent := by
  have hu : TilesUniform exTex c1wTiles c1wOut.tileW c1wOut.tileH := by
    unfold TilesUniform RowUniform
    decide
  have hxb : ∀ r row, c1wTiles.get? r = some row →
      row.length * c1wOut.tileW ≤ u32Bound := by
    intro r row hr
    rcases r with _ | _ | n
    · cases hr; decide
    · cases hr; decide
    · simp [c1wTiles] at hr
  have hyb : c1wTiles.length * c1wOut.tileH ≤ u32Bound := by decide
  exact ⟨(claim_C1_amended_paint_uniform exTex c1wTiles 0 "g" 2 2 c1wOut rfl hu hxb hyb).1
      0 ["t", ""] 0 "t" exTile rfl rfl (by decide) rfl 0 0
      (by decide) (by decide) (by decide) (by decide),
    (claim_C1_amended_paint_uniform exTex c1wTiles 0 "g" 2 2 c1wOut rfl hu hxb hyb).2
      0 ["t", ""] 1 rfl rfl 0 0
      (by decide) (by decide) (by decide) (by decide)⟩

/-! ## Claim C7: ragged rows -/

/-- C7 counterexample, in three parts.  (i) The claim says cells beyond
`cols - 1` are "silently ignored … and cause no error": in the grid
`[[a], [a, missing]]` (`cols = 1`, second row longer), the excess cell
`missing` is still loaded and its missing tile file aborts the composition
with a tile-load error.  (ii) The claim promises short rows leave their
out-of-range cells transparent with no uniformity proviso: with the
non-uniform directory `cTexB` (tile `tall` is 1 × 2), the grid
`[[a, tall], [a]]` has the out-of-range cell (1, 1) covered by the too-tall
neighbor, so its footprint pixel (1, 1) is opaque, not transparent.
(iii) "Contribute no pixels" also fails when an excess cell's u32 offset
wraps: over the 2^26-wide anchor, the excess cell `b` at column 64 has
offset `64 * 2^26 = 2^32`, which wraps to 0 and repaints pixel (0, 1)
inside the canvas, so composing the cols-truncated grid gives a different
image. -/
theorem claim_C7_counterexample :
    (compose_layer cTexB [["a"], ["a", "missing"]] 0 "g" 1 2 =
        .error (.tileLoad "missing.png") ∧
      ([["a"], ["a", "missing"]].headD []).length = 1 ∧
      [["a"], ["a", "missing"]].get? 1 = some ["a", "missing"]) ∧
    (compose_layer cTexB [["a", "tall"], ["a"]] 0 "g" 2 2 = .ok (some c7cOut) ∧
      [["a", "tall"], ["a"]].get? 1 = some ["a"] ∧
      ["a"].length ≤ 1 ∧
      0 < c7cOut.tileW ∧ 0 < c7cOut.tileH ∧
      1 * c7cOut.tileW + 0 < c7cOut.canvas.width ∧
      1 * c7cOut.tileH + 0 < c7cOut.canvas.height ∧
      c7cOut.canvas.pix (1 * c7cOut.tileW + 0) (1 * c7cOut.tileH + 0) ≠ Rgba.transparent) ∧
    (compose_layer wideTex c7dTiles 0 "g" 1 2 = .ok (some c7dOut) ∧
      compose_layer wideTex (truncGrid c7dTiles) 0 "g" 1 2 = .ok (some c7dOutT) ∧
      (c7dTiles.headD []).length = 1 ∧
      c7dOut.canvas.pix 0 1 = ⟨0, 0, 255, 255⟩ ∧
      c7dOutT.canvas.pix 0 1 = Rgba.transparent) :=
  ⟨⟨rfl, rfl, rfl⟩,
   ⟨rfl, rfl, by decide, by decide, by decide, by decide, by decide, by decide⟩,
   ⟨rfl, rfl, by decide, by decide, by decide⟩⟩

/-- C7 (amended): for every successfully composed layer whose per-row u32
cell offsets do not wrap, (i) the excess cells of rows longer than `cols`
(the first row's length) contribute no pixels — composing the grid
truncated to `cols` columns per row produces the identical output — though,
unlike the claim's "cause no error", their tiles are still loaded and a
failing load aborts the composition; and (ii) under the uniform-tile-size
hypothesis (and the vertical offsets fitting in u32 as well), a row shorter
than `cols` leaves the footprint of each out-of-range cell fully
transparent. -/
theorem claim_C7_amended_ragged_rows (tex : String → Option Image)
    (tiles : List (List String)) (li : Nat) (g : String) (fw fh : Nat)
    (out : LayerOutput)
    (hok : compose_layer tex tiles li g fw fh = .ok (some out))
    (hxb : ∀ r row, tiles.get? r = some row → row.length * out.tileW ≤ u32Bound) :
    compose_layer tex (truncGrid tiles) li g fw fh = .ok (some out) ∧
    (TilesUniform tex tiles out.tileW out.tileH →
      tiles.length * out.tileH ≤ u32Bound →
      ∀ r row c, tiles.get? r = some row → row.length ≤ c →
        ∀ i j, i < out.tileW → j < out.tileH →
          c * out.tileW + i < out.canvas.width →
          r * out.tileH + j < out.canvas.height →
          out.canvas.pix (c * out.tileW + i) (r * out.tileH + j) = Rgba.transparent) := by
  obtain ⟨f, rt, rr, anchor, canvas, heq, htex, hdraw, hout⟩ := compose_layer_ok_some hok
  subst heq
  subst hout
  have hxb2 : ∀ row2 ∈ (f :: rt) :: rr, row2.length * anchor.width ≤ u32Bound := by
    intro row2 hmem
    obtain ⟨n, hn⟩ := List.mem_iff_get?.mp hmem
    exact hxb n row2 hn
  constructor
  · have h1 : (f :: rt).take (rt.length + 1) = f :: rt :=
      List.take_of_length_le (by simp)
    have htr : truncGrid ((f :: rt) :: rr) =
        (f :: rt) :: rr.map (fun row => row.take (rt.length + 1)) := by
      simp [truncGrid, h1]
    rw [htr]
    have hdraw2 := @drawGrid_take tex anchor.width anchor.height (rt.length + 1)
      ((f :: rt) :: rr) 0
      (Image.fromPixel ((f :: rt).length * anchor.width % u32Bound)
        (((f :: rt) :: rr).length * anchor.height % u32Bound) Rgba.transparent) canvas
      rfl hxb2 hdraw
    rw [List.map_cons, h1] at hdraw2
    simp only [compose_layer, load_tile, htex]
    simp only [List.length_cons, List.length_map] at hdraw2 ⊢
    rw [hdraw2]
  · intro hunif hyb r row c hrow hclen i j hi hj hbw hbh
    simp only [] at hunif hbw hbh hi hj ⊢
    have hyb2 : (0 + ((f :: rt) :: rr).length) * anchor.height ≤ u32Bound := by
      simpa using hyb
    have hdims := drawGrid_dims _ _ _ _ hdraw
    simp only [Image.fromPixel] at hdims
    have := drawGrid_untouched ((f :: rt) :: rr) 0 _ canvas hdraw hunif hxb2 hyb2
      (c * anchor.width + i) (r * anchor.height + j)
      (fun r2 row2 hrow2 k name2 hk hn2 => by
        intro hcontra
        obtain ⟨hx1, hx2, hy1, hy2⟩ := hcontra
        simp only [Nat.zero_add] at hy1 hy2
        have hkc : k = c := cell_unique hi hx1 hx2
        have hr2r : r2 = r := cell_unique hj hy1 hy2
        subst hkc
        subst hr2r
        rw [hrow] at hrow2
        cases hrow2
        rw [List.get?_eq_none.mpr hclen] at hk
        cases hk)
    simpa [Image.fromPixel] using this

/-- Witness for the amended C7 at the uniform ragged grid `c7wTiles`: the
truncated grid composes to the identical output, and the out-of-range cell
(1, 1) of the short second row stays transparent. -/
theorem claim_C7_witness :
    compose_layer exTex (truncGrid c7wTiles) 0 "g" 2 2 = .ok (some c7wOut) ∧
    c7wOut.canvas.pix (1 * c7wOut.tileW + 0) (1 * c7wOut.tileH + 0) = Rgba.transparent := by
  have hu : TilesUniform exTex c7wTiles c7wOut.tileW c7wOut.tileH := by
    unfold TilesUniform RowUniform
    decide
  have hxb : ∀ r row, c7wTiles.get? r = some row →
      row.length * c7wOut.tileW ≤ u32Bound := by
    intro r row hr
    rcases r with _ | _ | n
    · cases hr; decide
    · cases hr; decide
    · simp [c7wTiles] at hr
  exact ⟨(claim_C7_amended_ragged_rows exTex c7wTiles 0 "g" 2 2 c7wOut rfl hxb).1,
    (claim_C7_amended_ragged_rows exTex c7wTiles 0 "g" 2 2 c7wOut rfl hxb).2 hu (by decide)
      1 ["t"] 1 rfl (by decide) 0 0 (by decide) (by decide) (by decide) (by decide)⟩

/-! ## Arithmetic helpers for the target-size computation -/

theorem floor_nat_div (a b : Nat) (hb : 0 < b) :
    ⌊(a : ℚ) / (b : ℚ)⌋ = ((a / b : Nat) : ℤ) := by
  have hbq : (0 : ℚ) < (b : ℚ) := by exact_mod_cast hb
  rw [Int.floor_eq_iff]
  constructor
  · rw [le_div_iff hbq]
    exact_mod_cast Nat.div_mul_le_self a b
  · rw [div_lt_iff hbq]
    have key : a < (a / b + 1) * b := by
      have hd := Nat.div_add_mod a b
      have hm : a % b < b := Nat.mod_lt _ hb
      calc a = b * (a / b) + a % b := hd.symm
        _ < b * (a / b) + b := Nat.add_lt_add_left hm _
        _ = (a / b + 1) * b := by ring
    exact_mod_cast key

/-! ## Claim C4: per-layer target dimensions -/

/-- C4 counterexample: the claim's formula `round(dim * 0.5^(i-1))` fails at
`dim = 2^31, i = 0`: the doubled value `2^32` does not fit in `u32`, so the
code's `as u32` cast saturates to `u32::MAX = 4294967295`, one less than the
claimed rounded value. -/
theorem claim_C4_counterexample :
    target_dim 2147483648 0 = 4294967295 ∧
    round ((2147483648 : ℚ) * (1 / 2 : ℚ) ^ (((0 : ℕ) : ℤ) - 1)) = 4294967296 ∧
    (4294967295 : ℤ) ≠ 4294967296 := by
  refine ⟨by decide, ?_, by decide⟩
  have e : (((0 : ℕ) : ℤ)) - 1 = -1 := by norm_num
  rw [e, zpow_neg_one]
  have e2 : (2147483648 : ℚ) * (1 / 2 : ℚ)⁻¹ = ((4294967296 : ℕ) : ℚ) := by norm_num
  rw [e2, round_natCast]
  norm_num

/-- C4 (amended with the u32 saturation proviso): whenever the doubled
dimension fits in `u32` (which the `i = 0` saturating float-to-int cast
requires; for `i ≥ 1` there is no constraint), the target dimension passed
to the composer for layer `i` is exactly `round(dim * 0.5^(i-1))`, rounding
halves away from zero as `f64::round` does; and the concrete table of the
claim holds: for pyramid dimensions 1000 × 800, layer 1's target is
1000 × 800, layer 0's is 2000 × 1600, layer 2's is 500 × 400 and layer 3's
is 250 × 200. -/
theorem claim_C4_amended_target_scale :
    (∀ dim i : Nat, (i = 0 → 2 * dim < u32Bound) →
      (target_dim dim i : ℤ) = round ((dim : ℚ) * (1 / 2 : ℚ) ^ ((i : ℤ) - 1))) ∧
    target_dim 1000 1 = 1000 ∧ target_dim 800 1 = 800 ∧
    target_dim 1000 0 = 2000 ∧ target_dim 800 0 = 1600 ∧
    target_dim 1000 2 = 500 ∧ target_dim 800 2 = 400 ∧
    target_dim 1000 3 = 250 ∧ target_dim 800 3 = 200 := by
  refine ⟨?_, by decide, by decide, by decide, by decide, by decide, by decide,
    by decide, by decide⟩
  intro dim i hsat
  cases i with
  | zero =>
    have h := hsat rfl
    have hmin : target_dim dim 0 = 2 * dim := by
      unfold target_dim
      rw [if_pos rfl]
      simp only [u32Bound] at h ⊢
      omega
    rw [hmin]
    have e : (((0 : ℕ) : ℤ)) - 1 = -1 := by norm_num
    rw [e, zpow_neg_one]
    have e2 : (dim : ℚ) * (1 / 2 : ℚ)⁻¹ = ((2 * dim : ℕ) : ℚ) := by
      push_cast
      ring
    rw [e2, round_natCast]
  | succ k =>
    have hne : ¬(k + 1 = 0) := Nat.succ_ne_zero k
    simp only [target_dim, if_neg hne]
    have e1 : (((k + 1 : ℕ) : ℤ)) - 1 = (k : ℤ) := by push_cast; ring
    rw [e1, zpow_natCast, round_eq]
    have e2 : (dim : ℚ) * (1 / 2 : ℚ) ^ k + 1 / 2 =
        ((2 * dim + 2 ^ k : ℕ) : ℚ) / ((2 ^ (k + 1) : ℕ) : ℚ) := by
      have h2 : ((2 : ℚ) ^ k) ≠ 0 := by positivity
      push_cast
      rw [div_pow, one_pow]
      field_simp
      ring
    rw [e2, floor_nat_div _ _ (by positivity)]
    norm_num

/-- Witness for the amended C4 at `dim = 1000, i = 2`. -/
theorem claim_C4_witness :
    (target_dim 1000 2 : ℤ) = round ((1000 : ℚ) * (1 / 2 : ℚ) ^ (((2 : ℕ) : ℤ) - 1)) :=
  claim_C4_amended_target_scale.1 1000 2 (by omega)

/-! ## Claim C8: the enable-lower-layers toggle -/

/-- C8: with the enable-lower-layers flag false, every layer of index
greater than 1 is skipped entirely — the loop over any layer list starting
at an index above 1 writes no file and raises no error; with the flag true
the loop composes every layer (it coincides with the skip-free reference
loop `composeAllLayers`).  Concretely, a four-layer manifest over `exTex`
yields only `layer_0.png` and `layer_1.png` with the flag false, and all
four files with the flag true. -/
theorem claim_C8_layer_skip_toggle :
    (∀ (tex : String → Option Image) (g : String) (w h : Nat)
        (layers : List DziLayer) (i : Nat), 1 < i →
      run_layers false tex g w h i layers = .ok []) ∧
    (∀ (tex : String → Option Image) (g : String) (w h : Nat)
        (layers : List DziLayer) (i : Nat),
      run_layers true tex g w h i layers = composeAllLayers tex g w h i layers) ∧
    run_layers false exTex "g" 100 100 0 exLayers4 =
      .ok ["g/layer_0.png", "g/layer_1.png"] ∧
    run_layers true exTex "g" 100 100 0 exLayers4 =
      .ok ["g/layer_0.png", "g/layer_1.png", "g/layer_2.png", "g/layer_3.png"] := by
  refine ⟨?_, ?_, by decide, by decide⟩
  · intro tex g w h layers
    induction layers with
    | nil => intro i _; rfl
    | cons layer rest ih =>
      intro i hi
      simp only [run_layers]
      rw [if_pos ⟨hi, by simp⟩]
      exact ih (i + 1) (by omega)
  · intro tex g w h layers
    induction layers with
    | nil => intro i; rfl
    | cons layer rest ih =>
      intro i
      simp only [run_layers, composeAllLayers]
      rw [if_neg (by simp)]
      cases hc : compose_layer tex layer.tiles i g (target_dim w i) (target_dim h i) with
      | error e => rfl
      | ok o =>
        cases o with
        | none => exact ih (i + 1)
        | some out => rw [ih (i + 1)]

/-- Witness for C8: starting the loop at index 2 with the flag false writes
nothing and succeeds. -/
theorem claim_C8_witness :
    run_layers false exTex "g" 100 100 2 exLayers4 = .ok [] :=
  claim_C8_layer_skip_toggle.1 exTex "g" 100 100 exLayers4 2 (by omega)

/-! ## Claim C5: parsed grid shape -/

/-- C5: for a manifest whose layer section is a header line parsing to
`cols, rows` followed by exactly `rows` row lines (the remaining lines
parsing as further layers), the parsed layer's tile grid has exactly `rows`
entries; when the first row line is well-formed (it splits into `cols`
comma-separated fields) the grid's first row has exactly `cols` entries; and
every row is the verbatim split-and-trim of its line, so rows of differing
length are preserved, not normalized. -/
theorem claim_C5_grid_shape (fmt sizeLine header : String) (rest : List String)
    (w h cols rows : Nat) (sztail htail : List Nat) (tl : List DziLayer)
    (hsz : parseSize sizeLine = some (w :: h :: sztail))
    (hh : parseHeader header = some (cols :: rows :: htail))
    (hlen : rows ≤ rest.length)
    (htl : parseLayers (rest.drop rows) = .ok tl)
    (hwf : ∀ line0, rest.head? = some line0 → (splitComma line0).length = cols) :
    parse_dzi (fmt :: sizeLine :: header :: rest) =
      .ok ⟨w, h, ⟨(rest.take rows).map splitTrim, rows, cols⟩ :: tl⟩ ∧
    ((rest.take rows).map splitTrim).length = rows ∧
    (∀ line0 ltail, rest = line0 :: ltail → 0 < rows →
      ((rest.take rows).map splitTrim).head? = some (splitTrim line0) ∧
      (splitTrim line0).length = cols) ∧
    (∀ jj, jj < rows → ((rest.take rows).map splitTrim).get? jj =
      (rest.get? jj).map splitTrim) := by
  have hPL : parseLayers (header :: rest) =
      .ok (⟨(rest.take rows).map splitTrim, rows, cols⟩ :: tl) := by
    rw [parseLayers.eq_def]
    simp only [hh, hlen, if_true, htl]
  refine ⟨?_, ?_, ?_, ?_⟩
  · simp only [parse_dzi, hsz, hPL]
  · simp only [List.length_map, List.length_take]
    omega
  · intro line0 ltail hrest hpos
    subst hrest
    cases rows with
    | zero => omega
    | succ n =>
      constructor
      · simp [List.take_succ_cons]
      · simp only [splitTrim, List.length_map]
        exact hwf line0 rfl
  · intro jj hjj
    rw [List.get?_map, List.get?_take hjj]

/-- Witness for C5 at a concrete two-row manifest whose second row is longer
than the declared column count and is preserved verbatim. -/
theorem claim_C5_witness :
    parse_dzi ["dzi", "100,100", "2,2", "a,b", "c,d,e"] =
      .ok ⟨100, 100, [⟨[["a", "b"], ["c", "d", "e"]], 2, 2⟩]⟩ :=
  (claim_C5_grid_shape "dzi" "100,100" "2,2" ["a,b", "c,d,e"] 100 100 2 2 [] [] []
    (by decide) (by decide) (by decide) parseLayers.eq_1
    (fun line0 hl => by cases hl; decide)).1

/-! ## Claim C6: failure modes of the parser -/

/-- C6 counterexample: the claim says a manifest that ends before the
declared number of row lines fails with the recoverable
`MalformedManifestError`; in the code that case is an `.unwrap()` panic
(modelled as `ParseErr.panicked`), which aborts the process instead of
returning through the `Result` channel (`ParseErr.noSizeLine`, the one
recoverable manifest error the function ever returns). -/
theorem claim_C6_counterexample :
    parse_dzi ["dzi", "100,100", "2,3", "a,b", "c,d"] = .error .panicked ∧
    parse_dzi ["dzi", "100,100", "2,3", "a,b", "c,d"] ≠ .error .noSizeLine := by
  have h1 : parse_dzi ["dzi", "100,100", "2,3", "a,b", "c,d"] = .error .panicked := by
    rw [parse_dzi]
    rw [parseLayers.eq_def]
    norm_num
    decide
  refine ⟨h1, ?_⟩
  rw [h1]
  decide

/-- C6 (amended): a manifest with fewer than 2 lines fails with the
recoverable manifest-parse error (`noSizeLine`, the `anyhow` error the
`Result` carries); a size line that does not parse into at least two
comma-separated `u32` fields, a layer header that does not parse into at
least two `usize` fields, and a file ending before the declared number of
row lines all make the parser panic (`panicked`), aborting the process
rather than returning a recoverable error.  In every case parsing fails, so
no layers are produced for the manifest. -/
theorem claim_C6_amended_parse_failures :
    (∀ ls : List String, ls.length < 2 → parse_dzi ls = .error .noSizeLine) ∧
    (∀ fmt sizeLine rest, parseSize sizeLine = none →
      parse_dzi (fmt :: sizeLine :: rest) = .error .panicked) ∧
    (∀ fmt sizeLine rest ps, parseSize sizeLine = some ps → ps.length < 2 →
      parse_dzi (fmt :: sizeLine :: rest) = .error .panicked) ∧
    (∀ fmt sizeLine header rest w h sztail,
      parseSize sizeLine = some (w :: h :: sztail) → parseHeader header = none →
      parse_dzi (fmt :: sizeLine :: header :: rest) = .error .panicked) ∧
    (∀ fmt sizeLine header rest w h sztail ps,
      parseSize sizeLine = some (w :: h :: sztail) → parseHeader header = some ps →
      ps.length < 2 →
      parse_dzi (fmt :: sizeLine :: header :: rest) = .error .panicked) ∧
    (∀ fmt sizeLine header rest w h sztail cols rows htail,
      parseSize sizeLine = some (w :: h :: sztail) →
      parseHeader header = some (cols :: rows :: htail) → rest.length < rows →
      parse_dzi (fmt :: sizeLine :: header :: rest) = .error .panicked) := by
  refine ⟨?_, ?_, ?_, ?_, ?_, ?_⟩
  · intro ls hlen
    rcases ls with _ | ⟨a, _ | ⟨b, t⟩⟩
    · rfl
    · rfl
    · simp only [List.length_cons] at hlen
      omega
  · intro fmt sizeLine rest hsz
    simp only [parse_dzi, hsz]
  · intro fmt sizeLine rest ps hsz hps
    rcases ps with _ | ⟨p, _ | ⟨q, t⟩⟩
    · simp only [parse_dzi, hsz]
    · simp only [parse_dzi, hsz]
    · simp only [List.length_cons] at hps
      omega
  · intro fmt sizeLine header rest w h sztail hsz hh
    simp only [parse_dzi, hsz]
    rw [parseLayers.eq_def]
    simp only [hh]
  · intro fmt sizeLine header rest w h sztail ps hsz hh hps
    rcases ps with _ | ⟨p, _ | ⟨q, t⟩⟩
    · simp only [parse_dzi, hsz]
      rw [parseLayers.eq_def]
      simp only [hh]
    · simp only [parse_dzi, hsz]
      rw [parseLayers.eq_def]
      simp only [hh]
    · simp only [List.length_cons] at hps
      omega
  · intro fmt sizeLine header rest w h sztail cols rows htail hsz hh hlen
    simp only [parse_dzi, hsz]
    rw [parseLayers.eq_def]
    simp only [hh, if_neg (by omega : ¬rows ≤ rest.length)]

/-- Witness for the amended C6: a one-line manifest yields the recoverable
error and a truncated layer section panics. -/
theorem claim_C6_witness :
    parse_dzi ["dzi"] = .error .noSizeLine ∧
    parse_dzi ["dzi", "100,100", "2,3", "a,b", "c,d"] = .error .panicked :=
  ⟨claim_C6_amended_parse_failures.1 ["dzi"] (by decide),
   claim_C6_amended_parse_failures.2.2.2.2.2 "dzi" "100,100" "2,3" ["a,b", "c,d"]
     100 100 [] 2 3 [] (by decide) (by decide) (by decide)⟩

/-! ## Claim C9: empty layers are a successful no-op -/

/-- C9: for every layer whose grid has zero rows, or whose first row has zero
columns, `compose_layer` performs no work and returns successfully: the
result is `ok none`, the early return taken before any tile lookup, canvas
allocation, directory creation or file write (cf. the `ok (some _)` branch,
which alone carries an output directory and file). -/
theorem claim_C9_empty_grid_noop (tex : String → Option Image) (li : Nat)
    (g : String) (fw fh : Nat) :
    compose_layer tex [] li g fw fh = .ok none ∧
    ∀ rest : List (List String), compose_layer tex ([] :: rest) li g fw fh = .ok none :=
  ⟨rfl, fun _ => rfl⟩

/-! ## Claim C10: an empty first cell is not skipped but loaded as ".png" -/

/-- C10: for every non-empty grid whose first cell holds the empty
identifier, `compose_layer` does not skip that cell the way the drawing loop
skips empty cells: it attempts to load the tile file named ".png" to
establish the tile dimensions, so when the tile directory has no such file
the layer fails with that tile-load error. -/
theorem claim_C10_empty_first_cell (tex : String → Option Image)
    (rtail : List String) (rest : List (List String)) (li : Nat) (g : String)
    (fw fh : Nat) (h : tex ".png" = none) :
    compose_layer tex (("" :: rtail) :: rest) li g fw fh = .error (.tileLoad ".png") := by
  have e : tileFile "" = ".png" := by decide
  simp [compose_layer, load_tile, e, h]

/-- Witness for C10 at a concrete empty tile directory. -/
theorem claim_C10_witness :
    compose_layer (fun _ => none) [[""]] 0 "g" 1 1 = .error (.tileLoad ".png") :=
  claim_C10_empty_first_cell (fun _ => none) [] [] 0 "g" 1 1 rfl

/-! ## Claim C2: canvas size and transparent initialization -/

/-- C2 counterexample: the claim asserts the pre-crop canvas is exactly
`cols * tileWidth` wide, but the source computes `cols as u32 * tile_w` in
u32, which wraps: with the 2^26-wide anchor tile and a 65-cell first row
(the 64 cells after the anchor are empty), `65 * 2^26 = 2^32 + 2^26` wraps
to a real canvas width of `2^26 = 67108864`, not `65 * 2^26 = 4362076160`
(a debug build panics at the same multiplication). -/
theorem claim_C2_counterexample :
    compose_layer wideTex c2cTiles 0 "g" 1 1 = .ok (some c2cOut) ∧
    wideTex (tileFile "t") = some wideTile ∧
    (c2cTiles.headD []).length = 65 ∧
    wideTile.width = 67108864 ∧
    c2cOut.canvas.width = 67108864 ∧
    65 * wideTile.width = 4362076160 ∧
    c2cOut.canvas.width ≠ 65 * wideTile.width :=
  ⟨rfl, rfl, by decide, by decide, by decide, by decide, by decide⟩

/-- C2 (amended with the u32 wrap of the source's dimension arithmetic):
for every non-empty layer grid, with `tileWidth`/`tileHeight` taken from
the tile named by the grid's first cell (row 0, col 0), the pre-crop canvas
is exactly `cols * tileWidth` reduced mod 2^32 wide and `rows * tileHeight`
reduced mod 2^32 tall, where `rows = len(grid)` and `cols = len(grid[0])`
(equal to the claimed products whenever they fit in u32), and the canvas is
initialized fully transparent (all four channels zero) before any tile is
drawn (`initCanvas` is the canvas value the drawing loop starts from). -/
theorem claim_C2_amended_canvas_mod (tex : String → Option Image)
    (firstName : String) (rtail : List String) (rrest : List (List String))
    (li : Nat) (g : String) (fw fh : Nat) (out : LayerOutput) (anchor : Image)
    (hok : compose_layer tex ((firstName :: rtail) :: rrest) li g fw fh = .ok (some out))
    (htex : tex (tileFile firstName) = some anchor) :
    out.tileW = anchor.width ∧ out.tileH = anchor.height ∧
    out.initCanvas.width = (firstName :: rtail).length * anchor.width % u32Bound ∧
    out.initCanvas.height =
      ((firstName :: rtail) :: rrest).length * anchor.height % u32Bound ∧
    (∀ px py, out.initCanvas.pix px py = Rgba.transparent) ∧
    out.canvas.width = (firstName :: rtail).length * anchor.width % u32Bound ∧
    out.canvas.height =
      ((firstName :: rtail) :: rrest).length * anchor.height % u32Bound := by
  obtain ⟨f2, rt2, rr2, anchor2, canvas, heq, htex2, hdraw, hout⟩ :=
    compose_layer_ok_some hok
  obtain ⟨h1, h2⟩ : (firstName = f2 ∧ rtail = rt2) ∧ rrest = rr2 := by
    constructor
    · have := congrArg List.head? heq
      simp at this
      exact ⟨this.1, this.2⟩
    · have := congrArg List.tail heq
      simpa using this
  obtain ⟨hf, hrt⟩ := h1
  subst hf; subst hrt; subst h2
  rw [htex] at htex2
  cases htex2
  have hd := drawGrid_dims _ _ _ _ hdraw
  subst hout
  refine ⟨rfl, rfl, rfl, rfl, fun px py => rfl, ?_, ?_⟩
  · exact hd.1
  · exact hd.2

/-- Witness for the amended C2 at the concrete single-tile composition
`exOut`. -/
theorem claim_C2_witness :
    exOut.tileW = exTile.width ∧ exOut.initCanvas.pix 0 0 = Rgba.transparent :=
  ⟨(claim_C2_amended_canvas_mod exTex "t" [] [] 1 "g" 5 7 exOut exTile rfl rfl).1,
   (claim_C2_amended_canvas_mod exTex "t" [] [] 1 "g" 5 7 exOut exTile rfl rfl).2.2.2.2.1 0 0⟩

/-! ## Claim C3: crop size and top-left anchoring -/

/-- C3: for every composed layer, the persisted output image's width is
`min(targetWidth, canvasWidth)` and its height `min(targetHeight,
canvasHeight)`, anchored at the canvas's top-left corner (the cropped pixels
are the canvas pixels at the same coordinates); a target larger than the
canvas never pads, the output only clips to the canvas size. -/
theorem claim_C3_crop_min (tex : String → Option Image)
    (tiles : List (List String)) (li : Nat) (g : String) (fw fh : Nat)
    (out : LayerOutput)
    (hok : compose_layer tex tiles li g fw fh = .ok (some out)) :
    out.cropped.width = min fw out.canvas.width ∧
    out.cropped.height = min fh out.canvas.height ∧
    ∀ px py, out.cropped.pix px py = out.canvas.pix px py := by
  obtain ⟨f, rt, rr, anchor, canvas, heq, htex, hdraw, hout⟩ :=
    compose_layer_ok_some hok
  have hd := drawGrid_dims _ _ _ _ hdraw
  subst hout
  refine ⟨?_, ?_, fun px py => rfl⟩
  · simp [cropImm, hd.1, Image.fromPixel]
  · simp [cropImm, hd.2, Image.fromPixel]

/-- Witness for C3 at the concrete single-tile composition `exOut`. -/
theorem claim_C3_witness :
    exOut.cropped.width = min 5 exOut.canvas.width ∧
    exOut.cropped.height = min 7 exOut.canvas.height :=
  ⟨(claim_C3_crop_min exTex [["t"]] 1 "g" 5 7 exOut rfl).1,
   (claim_C3_crop_min exTex [["t"]] 1 "g" 5 7 exOut rfl).2.1⟩

end Malie
